import Mathlib

/-!
Verification of the unified agent messaging and notification engine
(`convex/messaging.ts`, legacy `convex/agentMessaging.ts`,
`convex/notifications.ts`) against its natural-language specification.

The store is modelled as explicit lists of records; each mutation becomes a
pure function from the database state (plus a `now` timestamp standing for
`Date.now()`) to the updated state and the returned value.  Convex document
ids are modelled as `Nat`; the store's guarantee that `_id`s are unique lets
a patch-by-id loop be rendered as a pointwise update of the matching rows.
Index scans in ascending `_creationTime` order are rendered as filters over
the insertion-ordered list; `order("desc")` reverses them.
-/

namespace Messaging

/-- One row of the `agents` table (only the fields the messaging code reads). -/
structure Agent where
  id : Nat
  name : String
  avatar : String
  deriving Repr, DecidableEq

/-- One row of the `tasks` table (only the fields the messaging code reads). -/
structure Task where
  id : Nat
  linearIdentifier : Option String
  projectId : Option Nat
  deriving Repr, DecidableEq

/-- One row of the `unifiedMessages` table.  Optional Convex fields become
`Option`; a `mentions` field that the code leaves `undefined` is modelled as
the empty list (the code only ever tests membership via
`m.mentions?.includes(...)`, on which `undefined` and `[]` agree). -/
structure UMsg where
  id : Nat
  fromAgent : String
  toAgent : Option String
  taskId : Option Nat
  linearIdentifier : Option String
  content : String
  mtype : String
  mentions : List String
  priority : Option String
  read : Option Bool
  createdAt : Nat
  deriving Repr, DecidableEq

/-- One row of the legacy `agentMessages` table. -/
structure AMsg where
  id : Nat
  fromId : Nat
  toId : Nat
  atype : String
  content : String
  taskRef : Option Nat
  status : String
  timestamp : Nat
  deriving Repr, DecidableEq

/-- One row of the `notifications` table. -/
structure Notif where
  toId : Nat
  fromId : Nat
  ntype : String
  title : String
  message : String
  read : Bool
  relatedTask : Option Nat
  createdAt : Nat
  deriving Repr, DecidableEq

/-- One row of the `activityEvents` table (the fields the messaging code writes). -/
structure ActivityEvent where
  agentId : Nat
  agentName : String
  category : String
  eventType : String
  title : String
  taskId : Option Nat
  linearIdentifier : Option String
  projectId : Option Nat
  metadataSource : String
  timestamp : Nat
  deriving Repr, DecidableEq

/-- The store.  Lists are kept in insertion (`_creationTime`) order;
`nextId` supplies the id of the next inserted `unifiedMessages` /
`agentMessages` row. -/
structure DB where
  agents : List Agent
  tasks : List Task
  unifiedMessages : List UMsg
  agentMessages : List AMsg
  notifications : List Notif
  activityEvents : List ActivityEvent
  nextId : Nat
  deriving Repr, DecidableEq

/-- JavaScript `toLowerCase()`, modelled as per-character lowering (the agent
names and mention markers are ASCII, where the two agree). -/
def strToLower (s : String) : String := String.mk (s.data.map Char.toLower)

/-- JavaScript `toUpperCase()`, modelled as per-character raising. -/
def strToUpper (s : String) : String := String.mk (s.data.map Char.toUpper)

/-- JavaScript `s.length` (the messaging code only slices ASCII bodies). -/
def strLength (s : String) : Nat := s.data.length

/-- JavaScript `s.slice(0, n)`. -/
def strTake (s : String) (n : Nat) : String := String.mk (s.data.take n)

/-- `agents.find(a => a.name.toLowerCase() === nameLower)`. -/
def findAgent (agents : List Agent) (nameLower : String) : Option Agent :=
  agents.find? (fun a => strToLower a.name == nameLower)

/-- `ctx.db.get(taskId)`. -/
def getTask (tasks : List Task) (taskId : Nat) : Option Task :=
  tasks.find? (fun t => t.id == taskId)

/-- `new Map(agents.map(a => [a.name.toLowerCase(), a])).get(nameLower)`:
a JavaScript `Map` built from a list keeps the **last** entry per key. -/
def agentMapGet (agents : List Agent) (nameLower : String) : Option Agent :=
  (agents.filter (fun a => strToLower a.name == nameLower)).getLast?

/-- `content.slice(0, n) + (content.length > n ? "..." : "")`. -/
def truncateTo (n : Nat) (s : String) : String :=
  strTake s n ++ (if n < strLength s then "..." else "")

/-- One step of the regex `/@(Max|Sam|Leo|Son|all)/gi`: does the window of
three characters after an `@` match one of the five alternatives
case-insensitively?  All five alternatives have length three and are pairwise
distinct, so at most one matches and the alternation order is irrelevant.
The returned string is `match.slice(1).toLowerCase()`. -/
def tok3 (c1 c2 c3 : Char) : Option String :=
  match c1.toLower, c2.toLower, c3.toLower with
  | 'm', 'a', 'x' => some "max"
  | 's', 'a', 'm' => some "sam"
  | 'l', 'e', 'o' => some "leo"
  | 's', 'o', 'n' => some "son"
  | 'a', 'l', 'l' => some "all"
  | _, _, _ => none

/-- The left-to-right global scan of `content.match(/@(Max|Sam|Leo|Son|all)/gi)`:
at an `@` whose next three characters form an alternative, emit it and resume
after the match; otherwise advance one character.  A match needs four
characters, so suffixes shorter than four yield nothing. -/
def scanMentions : List Char → List String
  | [] => []
  | [_] => []
  | [_, _] => []
  | [_, _, _] => []
  | c :: c1 :: c2 :: c3 :: rest =>
    if c = '@' then
      match tok3 c1 c2 c3 with
      | some w => w :: scanMentions rest
      | none => scanMentions (c1 :: c2 :: c3 :: rest)
    else scanMentions (c1 :: c2 :: c3 :: rest)

/-- `[...new Set(names)]`: deduplicate keeping the first occurrence of each
element, in order. -/
def dedupFirstAux (seen : List String) : List String → List String
  | [] => []
  | x :: xs => if x ∈ seen then dedupFirstAux seen xs else x :: dedupFirstAux (x :: seen) xs

/-- `[...new Set(names)]`. -/
def dedupFirst (l : List String) : List String :=
  dedupFirstAux [] l

/-- `parseMentions` from `convex/messaging.ts`. -/
def parseMentions (content : String) : List String :=
  let names := scanMentions content.data
  if "all" ∈ names then ["max", "sam", "leo", "son"]
  else dedupFirst names

/-- The text contains the wildcard mention marker `@all`
(case-insensitively) at some position. -/
def hasAtAll : List Char → Bool
  | [] => false
  | [_] => false
  | [_, _] => false
  | [_, _, _] => false
  | c :: c1 :: c2 :: c3 :: rest =>
    (c == '@' && c1.toLower == 'a' && c2.toLower == 'l' && c3.toLower == 'l')
      || hasAtAll (c1 :: c2 :: c3 :: rest)

example : parseMentions "Looks good @Leo @leo @all" = ["max", "sam", "leo", "son"] := by decide
example : parseMentions "hello @Leo and @ghost" = ["leo"] := by decide
example : parseMentions "@Max @max @SAM" = ["max", "sam"] := by decide
example : hasAtAll "x @ALL y".data = true := by decide

/-- The value returned by `postComment`. -/
structure PostCommentResult where
  messageId : Nat
  taskId : Nat
  mentions : List String
  linearIdentifier : Option String
  deriving Repr, DecidableEq

/-- The notification that `postComment` inserts for one resolved mention. -/
def mentionNotif (sender mentioned : Agent) (linearId content : String)
    (taskId now : Nat) : Notif :=
  { toId := mentioned.id, fromId := sender.id, ntype := "mention",
    title := sender.name ++ " mentioned you",
    message := "In " ++ linearId ++ ": " ++ truncateTo 100 content,
    read := false, relatedTask := some taskId, createdAt := now }

/-- The notifications `postComment` fans out: one per mention name that is not
the sender and resolves to a known agent (failures to resolve are skipped). -/
def commentFanout (agents : List Agent) (sender : Agent) (agentNameLower : String)
    (mentions : List String) (linearId content : String) (taskId now : Nat) : List Notif :=
  mentions.filterMap (fun mentionName =>
    if mentionName = agentNameLower then none
    else match findAgent agents mentionName with
      | none => none
      | some mentionedAgent =>
          some (mentionNotif sender mentionedAgent linearId content taskId now))

/-- `postComment` from `convex/messaging.ts`: resolve the task (throwing
`Task not found` otherwise), parse mentions, insert the comment, then — only
if the sender name resolves to a known agent — append an activity-log entry
and fan out one notification per mentioned agent other than the sender. -/
def postComment (db : DB) (taskId : Nat) (agentName content : String) (now : Nat) :
    Except String (DB × PostCommentResult) :=
  let agentNameLower := strToLower agentName
  match getTask db.tasks taskId with
  | none => .error ("Task not found: " ++ toString taskId)
  | some task =>
    let mentions := parseMentions content
    let messageId := db.nextId
    let msg : UMsg :=
      { id := messageId, fromAgent := agentNameLower, toAgent := none,
        taskId := some taskId, linearIdentifier := task.linearIdentifier,
        content := content, mtype := "comment", mentions := mentions,
        priority := none, read := none, createdAt := now }
    let db1 := { db with unifiedMessages := db.unifiedMessages ++ [msg],
                         nextId := db.nextId + 1 }
    let result : PostCommentResult :=
      { messageId := messageId, taskId := taskId, mentions := mentions,
        linearIdentifier := task.linearIdentifier }
    match findAgent db.agents agentNameLower with
    | none => .ok (db1, result)
    | some agent =>
      let linearId := task.linearIdentifier.getD ("task-" ++ toString taskId)
      let ev : ActivityEvent :=
        { agentId := agent.id, agentName := agentNameLower, category := "message",
          eventType := "comment",
          title := strToUpper agent.name ++ " commented on " ++ linearId,
          taskId := some taskId, linearIdentifier := task.linearIdentifier,
          projectId := task.projectId, metadataSource := "unified_messaging",
          timestamp := now }
      let notifs := commentFanout db.agents agent agentNameLower mentions linearId content taskId now
      let db2 := { db1 with activityEvents := db1.activityEvents ++ [ev],
                            notifications := db1.notifications ++ notifs }
      .ok (db2, result)

/-- The value returned by `sendDM` / `sendDirectMessage`. -/
structure SendDMResult where
  messageId : Nat
  sender : String
  recipient : String
  priority : String
  deriving Repr, DecidableEq

/-- The notification title for a DM: prefixed with the urgent marker when the
priority is `"urgent"`. -/
def dmTitle (priority fromName : String) : String :=
  if priority = "urgent" then "🔴 Urgent DM from " ++ fromName
  else "DM from " ++ fromName

/-- The notification body for a DM: first 100 characters prefixed with the
ticket identifier when present, else first 150 characters. -/
def dmBody (linearIdentifier : Option String) (content : String) : String :=
  match linearIdentifier with
  | some lid => "Re: " ++ lid ++ " — " ++ truncateTo 100 content
  | none => truncateTo 150 content

/-- `sendDM` from `convex/messaging.ts`: the DM row is inserted first,
unconditionally; only afterwards are sender and recipient resolved, and when
**both** resolve a notification and an activity-log entry are appended.  The
mutation never fails on an unknown agent name. -/
def sendDM (db : DB) (fr toName content : String) (relatedTaskId : Option Nat)
    (priorityArg : Option String) (now : Nat) : DB × SendDMResult :=
  let fromLower := strToLower fr
  let toLower := strToLower toName
  let priority := priorityArg.getD "normal"
  let linearIdentifier :=
    relatedTaskId.bind (fun tid => (getTask db.tasks tid).bind (fun t => t.linearIdentifier))
  let messageId := db.nextId
  let msg : UMsg :=
    { id := messageId, fromAgent := fromLower, toAgent := some toLower,
      taskId := relatedTaskId, linearIdentifier := linearIdentifier,
      content := content, mtype := "dm", mentions := [],
      priority := some priority, read := some false, createdAt := now }
  let db1 := { db with unifiedMessages := db.unifiedMessages ++ [msg],
                       nextId := db.nextId + 1 }
  let result : SendDMResult :=
    { messageId := messageId, sender := fromLower, recipient := toLower,
      priority := priority }
  match findAgent db.agents fromLower, findAgent db.agents toLower with
  | some fromAgent, some toAgent =>
    let notif : Notif :=
      { toId := toAgent.id, fromId := fromAgent.id, ntype := "dm",
        title := dmTitle priority fromAgent.name,
        message := dmBody linearIdentifier content,
        read := false, relatedTask := relatedTaskId, createdAt := now }
    let ev : ActivityEvent :=
      { agentId := fromAgent.id, agentName := fromLower, category := "message",
        eventType := "dm_sent",
        title := strToUpper fromAgent.name ++ " sent DM to " ++ strToUpper toAgent.name,
        taskId := relatedTaskId, linearIdentifier := linearIdentifier,
        projectId := none, metadataSource := "unified_messaging", timestamp := now }
    ({ db1 with notifications := db1.notifications ++ [notif],
                activityEvents := db1.activityEvents ++ [ev] }, result)
  | _, _ => (db1, result)

/-- A message enriched with the live sender display name / avatar
(`agentMap.get(m.fromAgent)`, defaulting to the raw name and `"🤖"`). -/
structure EnrichedMsg where
  msg : UMsg
  fromAgentName : String
  fromAgentAvatar : String
  deriving Repr, DecidableEq

/-- Enrich one message with sender info at read time. -/
def enrich (agents : List Agent) (m : UMsg) : EnrichedMsg :=
  match agentMapGet agents m.fromAgent with
  | some a => { msg := m, fromAgentName := a.name, fromAgentAvatar := a.avatar }
  | none => { msg := m, fromAgentName := m.fromAgent, fromAgentAvatar := "🤖" }

/-- `getDMs` from `convex/messaging.ts`: scan the `by_to_agent` (or
`by_to_agent_unread`) index in descending creation order, keep only rows of
type `"dm"`, and enrich with sender info. -/
def getDMs (db : DB) (agentName : String) (unreadOnly : Bool) : List EnrichedMsg :=
  let agentNameLower := strToLower agentName
  let messages :=
    if unreadOnly then
      (db.unifiedMessages.filter
        (fun m => m.toAgent == some agentNameLower && m.read == some false)).reverse
    else
      (db.unifiedMessages.filter (fun m => m.toAgent == some agentNameLower)).reverse
  let dms := messages.filter (fun m => m.mtype == "dm")
  dms.map (enrich db.agents)

/-- The summary returned by `getUnreadCount`. -/
structure UnreadCount where
  dms : Nat
  mentions : Nat
  total : Nat
  deriving Repr, DecidableEq

/-- A row the `by_to_agent_unread` index yields for this agent:
`toAgent = agent ∧ read = false`. -/
def dmUnreadCond (agentNameLower : String) (m : UMsg) : Prop :=
  m.toAgent = some agentNameLower ∧ m.read = some false

instance (nl : String) (m : UMsg) : Decidable (dmUnreadCond nl m) := by
  unfold dmUnreadCond; infer_instance

/-- The unread-mention filter of `getUnreadCount` / `getUnread`:
`type === "comment" && read !== true && mentions?.includes(agent) && fromAgent !== agent`. -/
def mentionUnreadCond (agentNameLower : String) (m : UMsg) : Prop :=
  m.mtype = "comment" ∧ m.read ≠ some true ∧ agentNameLower ∈ m.mentions ∧
    m.fromAgent ≠ agentNameLower

instance (nl : String) (m : UMsg) : Decidable (mentionUnreadCond nl m) := by
  unfold mentionUnreadCond; infer_instance

/-- The unread-mention filter of `markAllRead`, which does **not** exclude
self-authored comments: `type === "comment" && read !== true && mentions?.includes(agent)`. -/
def mentionMarkCond (agentNameLower : String) (m : UMsg) : Prop :=
  m.mtype = "comment" ∧ m.read ≠ some true ∧ agentNameLower ∈ m.mentions

instance (nl : String) (m : UMsg) : Decidable (mentionMarkCond nl m) := by
  unfold mentionMarkCond; infer_instance

/-- `getUnreadCount` from `convex/messaging.ts`. -/
def getUnreadCount (db : DB) (agentName : String) : UnreadCount :=
  let agentNameLower := strToLower agentName
  let unreadDMs := db.unifiedMessages.filter (fun m => decide (dmUnreadCond agentNameLower m))
  let unreadMentions :=
    db.unifiedMessages.filter (fun m => decide (mentionUnreadCond agentNameLower m))
  { dms := unreadDMs.length, mentions := unreadMentions.length,
    total := unreadDMs.length + unreadMentions.length }

/-- `markRead` from `convex/messaging.ts`: patch `{ read: true }` on the one
`unifiedMessages` row with this id. -/
def markRead (db : DB) (messageId : Nat) : DB :=
  let patched := db.unifiedMessages.map
    (fun m => if m.id = messageId then { m with read := some true } else m)
  { db with unifiedMessages := patched }

/-- `markAllRead` from `convex/messaging.ts`: collect the unread DMs addressed
to the agent and the unread comments whose mention set contains the agent
(with no self-exclusion), patch `{ read: true }` on each collected row, and
return `toMark.length` — the two collections counted separately, so a row
matching both conditions is counted twice. -/
def markAllRead (db : DB) (agentName : String) : DB × Nat :=
  let agentNameLower := strToLower agentName
  let unreadDMs := db.unifiedMessages.filter (fun m => decide (dmUnreadCond agentNameLower m))
  let unreadMentions :=
    db.unifiedMessages.filter (fun m => decide (mentionMarkCond agentNameLower m))
  let patched := db.unifiedMessages.map
    (fun m => if dmUnreadCond agentNameLower m ∨ mentionMarkCond agentNameLower m
              then { m with read := some true } else m)
  ({ db with unifiedMessages := patched }, unreadDMs.length + unreadMentions.length)

/-- The pair filter of `getConversation`: a DM between the two agents in
either direction. -/
def convCond (a1 a2 : String) (m : UMsg) : Prop :=
  m.mtype = "dm" ∧
    ((m.fromAgent = a1 ∧ m.toAgent = some a2) ∨ (m.fromAgent = a2 ∧ m.toAgent = some a1))

instance (a1 a2 : String) (m : UMsg) : Decidable (convCond a1 a2 m) := by
  unfold convCond; infer_instance

/-- `getConversation` from `convex/messaging.ts`: filter the DMs between the
two agents, sort ascending by `createdAt` (oldest first), and, when a nonzero
`limit` is supplied, keep only the last `limit` entries (`slice(-limit)`; a
`limit` of `0` is falsy in JavaScript and means no clamp). -/
def getConversation (db : DB) (agent1 agent2 : String) (limit : Option Nat) :
    List EnrichedMsg :=
  let a1 := strToLower agent1
  let a2 := strToLower agent2
  let conversation :=
    (db.unifiedMessages.filter (fun m => decide (convCond a1 a2 m))).mergeSort
      (fun a b => a.createdAt ≤ b.createdAt)
  let limited := match limit with
    | some k => if k ≠ 0 then conversation.drop (conversation.length - k) else conversation
    | none => conversation
  limited.map (enrich db.agents)

/-- `sendDirectMessage` from the legacy `convex/agentMessaging.ts`: resolve
both agents **before** any write, throwing `Sender agent not found` /
`Recipient agent not found`; on success insert into the legacy
`agentMessages` table (never into `unifiedMessages`), then a notification and
an activity-log entry. -/
def sendDirectMessage (db : DB) (fromAgent toAgent content : String)
    (relatedTaskId : Option Nat) (priorityArg : Option String) (now : Nat) :
    Except String (DB × SendDMResult) :=
  match findAgent db.agents (strToLower fromAgent) with
  | none => .error ("Sender agent not found: " ++ fromAgent)
  | some fromDoc =>
    match findAgent db.agents (strToLower toAgent) with
    | none => .error ("Recipient agent not found: " ++ toAgent)
    | some toDoc =>
      let priority := priorityArg.getD "normal"
      let messageId := db.nextId
      let amsg : AMsg :=
        { id := messageId, fromId := fromDoc.id, toId := toDoc.id, atype := "fyi",
          content := content, taskRef := relatedTaskId, status := "unread",
          timestamp := now }
      let linearId :=
        relatedTaskId.bind (fun tid => (getTask db.tasks tid).bind (fun t => t.linearIdentifier))
      let notif : Notif :=
        { toId := toDoc.id, fromId := fromDoc.id, ntype := "dm",
          title := dmTitle priority fromDoc.name,
          message := dmBody linearId content,
          read := false, relatedTask := relatedTaskId, createdAt := now }
      let ev : ActivityEvent :=
        { agentId := fromDoc.id, agentName := strToLower fromAgent, category := "message",
          eventType := "dm_sent",
          title := strToUpper fromDoc.name ++ " sent DM to " ++ strToUpper toDoc.name,
          taskId := relatedTaskId, linearIdentifier := linearId,
          projectId := none, metadataSource := "agent_dm", timestamp := now }
      .ok ({ db with agentMessages := db.agentMessages ++ [amsg],
                     notifications := db.notifications ++ [notif],
                     activityEvents := db.activityEvents ++ [ev],
                     nextId := db.nextId + 1 },
           { messageId := messageId, sender := fromAgent, recipient := toAgent,
             priority := priority })

/-! ### Helper lemmas -/

/-- Enrichment never changes the underlying message. -/
theorem enrich_msg (agents : List Agent) (m : UMsg) : (enrich agents m).msg = m := by
  unfold enrich
  split <;> rfl

/-- A successful `tok3` match means none of the three lowered window
characters is `'@'` (they are letters of one of the five alternatives). -/
theorem tok3_no_at (c1 c2 c3 : Char) (w : String) (h : tok3 c1 c2 c3 = some w) :
    c1.toLower ≠ '@' ∧ c2.toLower ≠ '@' ∧ c3.toLower ≠ '@' := by
  unfold tok3 at h
  split at h <;> simp_all

/-- Case analysis for one step of `hasAtAll`: a marker occurrence either
starts at the head or lies in the tail. -/
theorem hasAtAll_cons (c : Char) (cs : List Char) (h : hasAtAll (c :: cs) = true) :
    (∃ c1 c2 c3 rest, cs = c1 :: c2 :: c3 :: rest ∧ c = '@' ∧
        c1.toLower = 'a' ∧ c2.toLower = 'l' ∧ c3.toLower = 'l') ∨
      hasAtAll cs = true := by
  match cs with
  | [] => simp [hasAtAll] at h
  | [_] => simp [hasAtAll] at h
  | [_, _] => simp [hasAtAll] at h
  | c1 :: c2 :: c3 :: rest =>
    simp only [hasAtAll, Bool.or_eq_true, Bool.and_eq_true, beq_iff_eq] at h
    rcases h with ⟨⟨⟨hc, h1⟩, h2⟩, h3⟩ | h
    · exact Or.inl ⟨c1, c2, c3, rest, rfl, hc, h1, h2, h3⟩
    · exact Or.inr h

/-- If the text contains the wildcard marker `@all`, the scan emits `"all"`. -/
theorem all_mem_scan : (cs : List Char) → hasAtAll cs = true → "all" ∈ scanMentions cs
  | [], h => by simp [hasAtAll] at h
  | [_], h => by simp [hasAtAll] at h
  | [_, _], h => by simp [hasAtAll] at h
  | [_, _, _], h => by simp [hasAtAll] at h
  | c :: c1 :: c2 :: c3 :: rest, h => by
    simp only [hasAtAll, Bool.or_eq_true, Bool.and_eq_true, beq_iff_eq] at h
    rcases h with ⟨⟨⟨hc, h1⟩, h2⟩, h3⟩ | htail
    · subst hc
      have htok : tok3 c1 c2 c3 = some "all" := by
        unfold tok3
        rw [h1, h2, h3]
        decide
      simp [scanMentions, htok]
    · by_cases hc : c = '@'
      · subst hc
        cases htok : tok3 c1 c2 c3 with
        | none =>
          simp only [scanMentions, if_pos rfl, htok]
          exact all_mem_scan (c1 :: c2 :: c3 :: rest) htail
        | some w =>
          obtain ⟨n1, n2, n3⟩ := tok3_no_at c1 c2 c3 w htok
          rcases hasAtAll_cons _ _ htail with ⟨d1, d2, d3, dr, _, hat, _⟩ | htail2
          · exact absurd (show c1.toLower = '@' by rw [hat]; decide) n1
          rcases hasAtAll_cons _ _ htail2 with ⟨d1, d2, d3, dr, _, hat, _⟩ | htail3
          · exact absurd (show c2.toLower = '@' by rw [hat]; decide) n2
          rcases hasAtAll_cons _ _ htail3 with ⟨d1, d2, d3, dr, _, hat, _⟩ | htail4
          · exact absurd (show c3.toLower = '@' by rw [hat]; decide) n3
          have hrest := all_mem_scan rest htail4
          simp only [scanMentions, if_pos rfl, htok]
          exact List.mem_cons_of_mem _ hrest
      · simp only [scanMentions, if_neg hc]
        exact all_mem_scan (c1 :: c2 :: c3 :: rest) htail

/-- Elements produced by `dedupFirstAux` avoid the `seen` accumulator. -/
theorem dedupFirstAux_not_seen :
    ∀ (l seen : List String) (x : String), x ∈ dedupFirstAux seen l → x ∉ seen
  | [], _, _, hx => by simp [dedupFirstAux] at hx
  | y :: ys, seen, x, hx => by
    by_cases hy : y ∈ seen
    · rw [dedupFirstAux, if_pos hy] at hx
      exact dedupFirstAux_not_seen ys seen x hx
    · rw [dedupFirstAux, if_neg hy] at hx
      rcases List.mem_cons.mp hx with rfl | hx'
      · exact hy
      · exact fun hs => dedupFirstAux_not_seen ys (y :: seen) x hx' (List.mem_cons_of_mem _ hs)

/-- `dedupFirstAux` returns a duplicate-free list. -/
theorem dedupFirstAux_nodup : ∀ (l seen : List String), (dedupFirstAux seen l).Nodup
  | [], _ => by simp [dedupFirstAux]
  | y :: ys, seen => by
    by_cases hy : y ∈ seen
    · rw [dedupFirstAux, if_pos hy]
      exact dedupFirstAux_nodup ys seen
    · rw [dedupFirstAux, if_neg hy]
      refine List.nodup_cons.mpr ⟨?_, dedupFirstAux_nodup ys (y :: seen)⟩
      intro hmem
      exact dedupFirstAux_not_seen ys (y :: seen) y hmem (List.mem_cons_self _ _)

/-- The result of `parseMentions` has set semantics: no duplicates. -/
theorem parseMentions_nodup (content : String) : (parseMentions content).Nodup := by
  unfold parseMentions
  by_cases hall : "all" ∈ scanMentions content.data
  · simp only [if_pos hall]
    decide
  · simp only [if_neg hall]
    exact dedupFirstAux_nodup _ _

/-- Counting lemma: if exactly one element of a duplicate-free list is mapped
by `f` to a value satisfying `p`, the filtered image has length one. -/
theorem length_filter_filterMap_unique {α β : Type} (f : α → Option β) (p : β → Bool) :
    ∀ (l : List α) (x : α), x ∈ l → l.Nodup →
      (∃ b, f x = some b ∧ p b = true) →
      (∀ y ∈ l, y ≠ x → ∀ b, f y = some b → p b = false) →
      ((l.filterMap f).filter p).length = 1
  | [], x, hx, _, _, _ => by cases hx
  | a :: t, x, hx, hnd, hfx, hother => by
    obtain ⟨ha, hndt⟩ := List.nodup_cons.mp hnd
    rcases List.mem_cons.mp hx with rfl | hxt
    · obtain ⟨b, hfa, hpb⟩ := hfx
      rw [List.filterMap_cons, hfa, List.filter_cons, if_pos hpb]
      have hnil : ((t.filterMap f).filter p) = [] := by
        rw [List.filter_eq_nil_iff]
        intro b' hb'
        obtain ⟨y, hy, hfy⟩ := List.mem_filterMap.mp hb'
        have hyx : y ≠ x := fun hyx => ha (hyx ▸ hy)
        simp [hother y (List.mem_cons_of_mem _ hy) hyx b' hfy]
      simp [hnil]
    · have hax : a ≠ x := fun h => ha (h ▸ hxt)
      have hrec := length_filter_filterMap_unique f p t x hxt hndt hfx
        (fun y hy hyx b hfy => hother y (List.mem_cons_of_mem _ hy) hyx b hfy)
      cases hfa : f a with
      | none => rw [List.filterMap_cons, hfa]; exact hrec
      | some b =>
        have hpb : p b = false := hother a (List.mem_cons_self _ _) hax b hfa
        rw [List.filterMap_cons, hfa, List.filter_cons, if_neg (by simp [hpb])]
        exact hrec

/-- `List.find?` facts packaged for `findAgent`: the hit is a member of the
roster and its lowered name is the searched key. -/
theorem findAgent_spec {agents : List Agent} {nameLower : String} {a : Agent}
    (h : findAgent agents nameLower = some a) :
    a ∈ agents ∧ strToLower a.name = nameLower := by
  unfold findAgent at h
  refine ⟨List.mem_of_find?_eq_some h, ?_⟩
  have := List.find?_some h
  simpa using this

/-! ### Concrete fixtures used by counterexamples and witnesses -/

/-- Fixture agent. -/
def agentMax : Agent := { id := 1, name := "Max", avatar := "M" }

/-- Fixture agent. -/
def agentSam : Agent := { id := 2, name := "Sam", avatar := "S" }

/-- Fixture agent. -/
def agentLeo : Agent := { id := 3, name := "Leo", avatar := "L" }

/-- Fixture agent. -/
def agentSon : Agent := { id := 4, name := "Son", avatar := "Z" }

/-- The running agent roster of the repository: Max, Sam, Leo, Son. -/
def exAgents : List Agent := [agentMax, agentSam, agentLeo, agentSon]

/-- A task resolvable as ticket `AGT-9`. -/
def exTask : Task := { id := 10, linearIdentifier := some "AGT-9", projectId := none }

/-- A store with the roster and task but no messages yet. -/
def emptyDb : DB :=
  { agents := exAgents, tasks := [exTask], unifiedMessages := [], agentMessages := [],
    notifications := [], activityEvents := [], nextId := 0 }

/-- A comment by `sam` mentioning both `leo` and `max`, not yet read. -/
def exComment : UMsg :=
  { id := 100, fromAgent := "sam", toAgent := none, taskId := some 10,
    linearIdentifier := some "AGT-9", content := "Looks good @Leo @Max",
    mtype := "comment", mentions := ["leo", "max"], priority := none,
    read := none, createdAt := 1 }

/-- A store holding `exComment`. -/
def exDb1 : DB :=
  { agents := exAgents, tasks := [exTask], unifiedMessages := [exComment],
    agentMessages := [], notifications := [], activityEvents := [], nextId := 101 }

/-- A comment by `sam` whose mention set contains only `sam` itself. -/
def exSelfComment : UMsg :=
  { id := 200, fromAgent := "sam", toAgent := none, taskId := some 10,
    linearIdentifier := some "AGT-9", content := "note to self @Sam",
    mtype := "comment", mentions := ["sam"], priority := none,
    read := none, createdAt := 2 }

/-- A store holding `exSelfComment`. -/
def exDb10 : DB :=
  { agents := exAgents, tasks := [exTask], unifiedMessages := [exSelfComment],
    agentMessages := [], notifications := [], activityEvents := [], nextId := 201 }

/-- Decidable equality for `Except`, used to evaluate legacy sends concretely. -/
instance {e a : Type} [DecidableEq e] [DecidableEq a] : DecidableEq (Except e a) := fun x y =>
  match x, y with
  | Except.error u, Except.error v => decidable_of_iff (u = v) (by simp)
  | Except.error _, Except.ok _ => Decidable.isFalse (by simp)
  | Except.ok _, Except.error _ => Decidable.isFalse (by simp)
  | Except.ok u, Except.ok v => decidable_of_iff (u = v) (by simp)

/-- Filtering by a decidable predicate that fails on every member yields `[]`. -/
theorem filter_decide_eq_nil {α : Type} (P : α → Prop) [DecidablePred P] (l : List α)
    (h : ∀ a ∈ l, ¬ P a) : l.filter (fun a => decide (P a)) = [] := by
  rw [List.filter_eq_nil_iff]
  intro a ha
  simpa using h a ha

/-! ### Claim theorems -/

/-- **C1** (code_bug evidence).  The spec requires unread-mention state to be
tracked per (message, mentioned-agent), so that one agent reading a comment
does not clear it for the other mentioned agents.  The code stores a single
`read` flag on the `unifiedMessages` row and `markRead` flips that flag:
evaluating on a comment by `sam` mentioning both `leo` and `max`, each has
one unread mention before the call, and a single `markRead` of the message
clears the unread mention for **both** of them. -/
theorem markRead_clears_all_mentions :
    (getUnreadCount exDb1 "leo").mentions = 1 ∧
    (getUnreadCount exDb1 "max").mentions = 1 ∧
    (getUnreadCount (markRead exDb1 100) "leo").mentions = 0 ∧
    (getUnreadCount (markRead exDb1 100) "max").mentions = 0 := by
  decide

/-- **C2** (counterexample).  The unified `sendDM` does not fail when the
sender name is unknown: called with unknown sender `"ghost"`, it still
inserts the DM row and returns a normal result. -/
theorem sendDM_unknown_sender_still_creates :
    findAgent emptyDb.agents (strToLower "ghost") = none ∧
    (sendDM emptyDb "ghost" "Sam" "hi" none none 3).1.unifiedMessages.length =
      emptyDb.unifiedMessages.length + 1 ∧
    (sendDM emptyDb "ghost" "Sam" "hi" none none 3).2 =
      { messageId := 0, sender := "ghost", recipient := "sam", priority := "normal" } := by
  decide

/-- **C2** (amended).  Name validation differs per write path: the legacy
`sendDirectMessage` fails with a not-found error before any write when either
name is unknown, while the unified `sendDM` always persists the DM and
returns success, skipping only the notification and activity-log writes. -/
theorem dm_send_validation_split
    (db : DB) (fr toName content : String) (tid : Option Nat) (prio : Option String)
    (now : Nat)
    (h : findAgent db.agents (strToLower fr) = none ∨ findAgent db.agents (strToLower toName) = none) :
    (∃ e, sendDirectMessage db fr toName content tid prio now = Except.error e) ∧
    (sendDM db fr toName content tid prio now).1.unifiedMessages.length =
      db.unifiedMessages.length + 1 ∧
    (sendDM db fr toName content tid prio now).1.notifications = db.notifications ∧
    (sendDM db fr toName content tid prio now).1.activityEvents = db.activityEvents := by
  constructor
  · rcases h with h | h
    · exact ⟨"Sender agent not found: " ++ fr, by simp [sendDirectMessage, h]⟩
    · cases hf : findAgent db.agents (strToLower fr) with
      | none => exact ⟨"Sender agent not found: " ++ fr, by simp [sendDirectMessage, hf]⟩
      | some fd => exact ⟨"Recipient agent not found: " ++ toName, by simp [sendDirectMessage, hf, h]⟩
  · rcases h with h | h
    · cases ht : findAgent db.agents (strToLower toName) with
      | none => simp [sendDM, h, ht]
      | some td => simp [sendDM, h, ht]
    · cases hf : findAgent db.agents (strToLower fr) with
      | none => simp [sendDM, hf, h]
      | some fd => simp [sendDM, hf, h]

/-- **C2** (witness for the amended claim at a concrete input). -/
theorem dm_send_validation_split_w :
    (∃ e, sendDirectMessage emptyDb "ghost" "Sam" "hi" none none 3 = Except.error e) ∧
    (sendDM emptyDb "ghost" "Sam" "hi" none none 3).1.unifiedMessages.length =
      emptyDb.unifiedMessages.length + 1 ∧
    (sendDM emptyDb "ghost" "Sam" "hi" none none 3).1.notifications = emptyDb.notifications ∧
    (sendDM emptyDb "ghost" "Sam" "hi" none none 3).1.activityEvents = emptyDb.activityEvents :=
  dm_send_validation_split emptyDb "ghost" "Sam" "hi" none none 3 (Or.inl (by decide))

/-- **C3** (counterexample).  A DM created through the legacy surface is not
visible through the unified query: `sendDirectMessage` succeeds and stores
one row in the legacy `agentMessages` table, yet `getDMs` for the recipient
over the unified store returns nothing. -/
theorem legacy_dm_invisible_unified :
    (sendDirectMessage emptyDb "Max" "Sam" "hello" none none 5).toOption.map
        (fun p => (p.1.agentMessages.length, getDMs p.1 "Sam" false)) =
      some (1, []) := by
  decide

/-- **C3** (amended).  Messages created through the legacy `agentMessaging`
write path persist in the separate `agentMessages` table and are invisible to
the unified read path: a successful legacy send leaves the unified message
store — and hence every `getDMs` result — unchanged. -/
theorem legacy_write_leaves_unified_store
    (db : DB) (fr toName content : String) (tid : Option Nat) (prio : Option String)
    (now : Nat) (db' : DB) (r : SendDMResult) (aName : String) (uo : Bool)
    (h : sendDirectMessage db fr toName content tid prio now = Except.ok (db', r)) :
    db'.unifiedMessages = db.unifiedMessages ∧
    getDMs db' aName uo = getDMs db aName uo := by
  cases hf : findAgent db.agents (strToLower fr) with
  | none => simp [sendDirectMessage, hf] at h
  | some fd =>
    cases ht : findAgent db.agents (strToLower toName) with
    | none => simp [sendDirectMessage, hf, ht] at h
    | some td =>
      simp only [sendDirectMessage, hf, ht, Except.ok.injEq, Prod.mk.injEq] at h
      obtain ⟨hdb, -⟩ := h
      subst hdb
      exact ⟨rfl, rfl⟩

/-- The store produced by the legacy send used in the C3 witness. -/
def legacyDbAfter : DB :=
  { agents := exAgents, tasks := [exTask], unifiedMessages := [],
    agentMessages := [{ id := 0, fromId := 1, toId := 2, atype := "fyi", content := "hello",
                        taskRef := none, status := "unread", timestamp := 5 }],
    notifications := [{ toId := 2, fromId := 1, ntype := "dm", title := "DM from Max",
                        message := "hello", read := false, relatedTask := none, createdAt := 5 }],
    activityEvents := [{ agentId := 1, agentName := "max", category := "message",
                         eventType := "dm_sent", title := "MAX sent DM to SAM", taskId := none,
                         linearIdentifier := none, projectId := none,
                         metadataSource := "agent_dm", timestamp := 5 }],
    nextId := 1 }

/-- **C3** (witness for the amended claim at a concrete input). -/
theorem legacy_write_leaves_unified_store_w :
    legacyDbAfter.unifiedMessages = emptyDb.unifiedMessages ∧
    getDMs legacyDbAfter "sam" false = getDMs emptyDb "sam" false :=
  legacy_write_leaves_unified_store emptyDb "Max" "Sam" "hello" none none 5 legacyDbAfter
    { messageId := 0, sender := "Max", recipient := "Sam", priority := "normal" } "sam" false
    (by decide)

/-- **C6.**  `markAllRead(agent)` followed immediately by the unread summary
yields zero unread DMs, zero unread mentions and zero total: `markAllRead`
flips every row the summary would count (its mention sweep is a superset of
the summary's mention filter, and the DM sweeps coincide). -/
theorem markAllRead_then_zero_unread (db : DB) (agentName : String) :
    getUnreadCount (markAllRead db agentName).1 agentName = ⟨0, 0, 0⟩ := by
  have hdm : ∀ a ∈ (markAllRead db agentName).1.unifiedMessages,
      ¬ dmUnreadCond (strToLower agentName) a := by
    intro a ha hc
    simp only [markAllRead, List.mem_map] at ha
    obtain ⟨m, hm, rfl⟩ := ha
    by_cases h : dmUnreadCond (strToLower agentName) m ∨ mentionMarkCond (strToLower agentName) m
    · rw [if_pos h] at hc
      rcases hc with ⟨-, hr⟩
      simp at hr
    · rw [if_neg h] at hc
      exact h (Or.inl hc)
  have hmen : ∀ a ∈ (markAllRead db agentName).1.unifiedMessages,
      ¬ mentionUnreadCond (strToLower agentName) a := by
    intro a ha hc
    simp only [markAllRead, List.mem_map] at ha
    obtain ⟨m, hm, rfl⟩ := ha
    by_cases h : dmUnreadCond (strToLower agentName) m ∨ mentionMarkCond (strToLower agentName) m
    · rw [if_pos h] at hc
      rcases hc with ⟨-, hr, -⟩
      exact hr rfl
    · rw [if_neg h] at hc
      exact h (Or.inr ⟨hc.1, hc.2.1, hc.2.2.1⟩)
  simp only [getUnreadCount]
  rw [filter_decide_eq_nil _ _ hdm, filter_decide_eq_nil _ _ hmen]
  rfl

/-- **C9.**  `postComment` with a resolvable task but an unknown sender name
still persists the comment and returns normally with the message id and the
resolved mention set, while the notification and activity-log tables are left
untouched (only the message write is guaranteed on the comment path). -/
theorem postComment_unknown_sender_persists_only
    (db : DB) (taskId : Nat) (agentName content : String) (now : Nat)
    (task : Task) (htask : getTask db.tasks taskId = some task)
    (hsender : findAgent db.agents (strToLower agentName) = none) :
    postComment db taskId agentName content now =
      Except.ok
        ({ db with
            unifiedMessages := db.unifiedMessages ++
              [{ id := db.nextId, fromAgent := strToLower agentName, toAgent := none,
                 taskId := some taskId, linearIdentifier := task.linearIdentifier,
                 content := content, mtype := "comment", mentions := parseMentions content,
                 priority := none, read := none, createdAt := now }],
            nextId := db.nextId + 1 },
         { messageId := db.nextId, taskId := taskId, mentions := parseMentions content,
           linearIdentifier := task.linearIdentifier }) := by
  simp [postComment, htask, hsender]

/-- **C9** (witness at a concrete input: unknown sender `"ghost"`). -/
theorem postComment_unknown_sender_persists_only_w :
    postComment emptyDb 10 "ghost" "hi @Leo" 7 =
      Except.ok
        ({ emptyDb with
            unifiedMessages := emptyDb.unifiedMessages ++
              [{ id := emptyDb.nextId, fromAgent := strToLower "ghost", toAgent := none,
                 taskId := some 10, linearIdentifier := exTask.linearIdentifier,
                 content := "hi @Leo", mtype := "comment",
                 mentions := parseMentions "hi @Leo",
                 priority := none, read := none, createdAt := 7 }],
            nextId := emptyDb.nextId + 1 },
         { messageId := emptyDb.nextId, taskId := 10,
           mentions := parseMentions "hi @Leo",
           linearIdentifier := exTask.linearIdentifier }) :=
  postComment_unknown_sender_persists_only emptyDb 10 "ghost" "hi @Leo" 7 exTask
    (by decide) (by decide)

/-- **C10.**  `markAllRead` marks as read every unread comment whose mention
set contains the agent, with no self-exclusion — after the call no comment
mentioning the agent is left unread, whoever authored it — and because
`getUnreadCount` **does** exclude self-authored comments, the count returned
by `markAllRead` can exceed the total the summary reported just before the
call (shown on a store whose only row is a comment by `sam` mentioning
`sam`). -/
theorem markAllRead_includes_self_mentions :
    (∀ (db : DB) (agentName : String),
        ∀ m' ∈ (markAllRead db agentName).1.unifiedMessages,
          m'.mtype = "comment" → strToLower agentName ∈ m'.mentions →
            m'.read = some true) ∧
    (markAllRead exDb10 "sam").2 > (getUnreadCount exDb10 "sam").total := by
  constructor
  · intro db agentName m' hm' htype hmem
    simp only [markAllRead, List.mem_map] at hm'
    obtain ⟨m, hm, rfl⟩ := hm'
    by_cases h : dmUnreadCond (strToLower agentName) m ∨ mentionMarkCond (strToLower agentName) m
    · rw [if_pos h]
    · rw [if_neg h] at htype hmem ⊢
      by_contra hread
      exact h (Or.inr ⟨htype, hread, hmem⟩)
  · decide

/-- **C10** (witness at a concrete input): the self-mention comment of
`exDb10` is read after `markAllRead`. -/
theorem markAllRead_includes_self_mentions_w :
    ({ exSelfComment with read := some true } : UMsg) ∈
        (markAllRead exDb10 "sam").1.unifiedMessages ∧
    ({ exSelfComment with read := some true } : UMsg).read = some true :=
  ⟨by decide,
   markAllRead_includes_self_mentions.1 exDb10 "sam" _ (by decide) (by decide) (by decide)⟩

/-- **C5.**  For every text containing the wildcard mention marker `@all`
(case-insensitively), `parseMentions` returns exactly the full known-agent
roster, regardless of any other explicit markers in the text: the scan
necessarily emits `"all"`, and the wildcard branch then overrides everything
else. -/
theorem parseMentions_wildcard (content : String) (h : hasAtAll content.data = true) :
    parseMentions content = ["max", "sam", "leo", "son"] := by
  have hall := all_mem_scan content.data h
  unfold parseMentions
  simp [hall]

/-- **C5** (witness at a concrete input with another explicit marker). -/
theorem parseMentions_wildcard_w :
    hasAtAll "Looks good @Leo @ALL".data = true ∧
    parseMentions "Looks good @Leo @ALL" = ["max", "sam", "leo", "son"] :=
  ⟨by decide, parseMentions_wildcard _ (by decide)⟩

/-- **C7.**  `getConversation(A, B, k)` with a positive limit is the
oldest-first conversation truncated from its start to the last `k` entries —
the `k` most recent — and the call without a limit returns the same sequence
unclamped: the unlimited result is ascending in `createdAt` and is a
permutation of exactly the DMs between the two agents. -/
theorem getConversation_limit_spec
    (db : DB) (agent1 agent2 : String) (k : Nat) (hk : 0 < k) :
    getConversation db agent1 agent2 (some k) =
      (getConversation db agent1 agent2 none).drop
        ((getConversation db agent1 agent2 none).length - k) ∧
    (getConversation db agent1 agent2 none).Pairwise
      (fun a b => a.msg.createdAt ≤ b.msg.createdAt) ∧
    ((getConversation db agent1 agent2 none).map EnrichedMsg.msg).Perm
      (db.unifiedMessages.filter
        (fun m => decide (convCond (strToLower agent1) (strToLower agent2) m))) := by
  have hk0 : k ≠ 0 := Nat.pos_iff_ne_zero.mp hk
  refine ⟨?_, ?_, ?_⟩
  · simp only [getConversation, if_pos hk0]
    rw [List.length_map, List.map_drop]
  · simp only [getConversation]
    rw [List.pairwise_map]
    have hs := @List.sorted_mergeSort UMsg
      (fun a b : UMsg => decide (a.createdAt ≤ b.createdAt))
      (fun a b c hab hbc => by
        simp only [decide_eq_true_eq] at hab hbc ⊢
        exact Nat.le_trans hab hbc)
      (fun a b => by
        simp only [Bool.or_eq_true, decide_eq_true_eq]
        exact Nat.le_total a.createdAt b.createdAt)
      (db.unifiedMessages.filter
        (fun m => decide (convCond (strToLower agent1) (strToLower agent2) m)))
    refine hs.imp ?_
    intro a b hab
    simp only [decide_eq_true_eq] at hab
    simpa [enrich_msg] using hab
  · simp only [getConversation]
    rw [List.map_map]
    have hmm : ∀ m ∈ (db.unifiedMessages.filter
        (fun m => decide (convCond (strToLower agent1) (strToLower agent2) m))).mergeSort
          (fun a b : UMsg => decide (a.createdAt ≤ b.createdAt)),
        (EnrichedMsg.msg ∘ enrich db.agents) m = m := by
      intro m _
      simp [enrich_msg]
    rw [List.map_congr_left hmm, List.map_id']
    exact List.mergeSort_perm _ _

/-- A conversation fixture: two DMs between `max` and `sam`, stored out of
`createdAt` order. -/
def exDbConv : DB :=
  { agents := exAgents, tasks := [exTask],
    unifiedMessages :=
      [{ id := 0, fromAgent := "max", toAgent := some "sam", taskId := none,
         linearIdentifier := none, content := "second", mtype := "dm", mentions := [],
         priority := some "normal", read := some false, createdAt := 9 },
       { id := 1, fromAgent := "sam", toAgent := some "max", taskId := none,
         linearIdentifier := none, content := "first", mtype := "dm", mentions := [],
         priority := some "normal", read := some false, createdAt := 4 }],
    agentMessages := [], notifications := [], activityEvents := [], nextId := 2 }

/-- **C7** (witness at a concrete input with limit `1`). -/
theorem getConversation_limit_spec_w :
    getConversation exDbConv "Max" "Sam" (some 1) =
      (getConversation exDbConv "Max" "Sam" none).drop
        ((getConversation exDbConv "Max" "Sam" none).length - 1) ∧
    (getConversation exDbConv "Max" "Sam" none).Pairwise
      (fun a b => a.msg.createdAt ≤ b.msg.createdAt) ∧
    ((getConversation exDbConv "Max" "Sam" none).map EnrichedMsg.msg).Perm
      (exDbConv.unifiedMessages.filter
        (fun m => decide (convCond (strToLower "Max") (strToLower "Sam") m))) :=
  getConversation_limit_spec exDbConv "Max" "Sam" 1 (by decide)

/-- **C8.**  With sender and recipient both known, a DM sent with priority
`"urgent"` is stored with that priority, surfaces first in `getDMs` for the
recipient with the priority preserved, and its freshly created notification
carries the urgent-marker title; a DM sent with the priority omitted gets
`"normal"` end-to-end and a plain title. -/
theorem sendDM_priority_roundtrip
    (db : DB) (fr toName content : String) (tid : Option Nat) (now : Nat)
    (fd td : Agent)
    (hf : findAgent db.agents (strToLower fr) = some fd)
    (ht : findAgent db.agents (strToLower toName) = some td) :
    ((sendDM db fr toName content tid (some "urgent") now).2.priority = "urgent" ∧
     (getDMs (sendDM db fr toName content tid (some "urgent") now).1 toName false).head?.map
         (fun e => (e.msg.id, e.msg.priority)) = some (db.nextId, some "urgent") ∧
     ((sendDM db fr toName content tid (some "urgent") now).1.notifications.drop
         db.notifications.length).map Notif.title = ["🔴 Urgent DM from " ++ fd.name]) ∧
    ((sendDM db fr toName content tid none now).2.priority = "normal" ∧
     (getDMs (sendDM db fr toName content tid none now).1 toName false).head?.map
         (fun e => (e.msg.id, e.msg.priority)) = some (db.nextId, some "normal") ∧
     ((sendDM db fr toName content tid none now).1.notifications.drop
         db.notifications.length).map Notif.title = ["DM from " ++ fd.name]) := by
  have main : ∀ pa : Option String,
      (sendDM db fr toName content tid pa now).2.priority = pa.getD "normal" ∧
      (getDMs (sendDM db fr toName content tid pa now).1 toName false).head?.map
          (fun e => (e.msg.id, e.msg.priority)) =
        some (db.nextId, some (pa.getD "normal")) ∧
      ((sendDM db fr toName content tid pa now).1.notifications.drop
          db.notifications.length).map Notif.title = [dmTitle (pa.getD "normal") fd.name] := by
    intro pa
    refine ⟨by simp [sendDM, hf, ht], ?_, ?_⟩
    · simp [sendDM, hf, ht, getDMs, List.filter_append, List.reverse_append, enrich_msg]
    · simp [sendDM, hf, ht, List.drop_left]
  refine ⟨?_, ?_⟩
  · obtain ⟨h1, h2, h3⟩ := main (some "urgent")
    exact ⟨h1, h2, by simpa [dmTitle] using h3⟩
  · obtain ⟨h1, h2, h3⟩ := main none
    exact ⟨h1, h2, by simpa [dmTitle] using h3⟩

/-- **C8** (witness at a concrete input: `Max` DMs `Sam`). -/
theorem sendDM_priority_roundtrip_w :
    ((sendDM emptyDb "Max" "Sam" "ping" none (some "urgent") 9).2.priority = "urgent" ∧
     (getDMs (sendDM emptyDb "Max" "Sam" "ping" none (some "urgent") 9).1 "Sam" false).head?.map
         (fun e => (e.msg.id, e.msg.priority)) = some (emptyDb.nextId, some "urgent") ∧
     ((sendDM emptyDb "Max" "Sam" "ping" none (some "urgent") 9).1.notifications.drop
         emptyDb.notifications.length).map Notif.title =
       ["🔴 Urgent DM from " ++ agentMax.name]) ∧
    ((sendDM emptyDb "Max" "Sam" "ping" none none 9).2.priority = "normal" ∧
     (getDMs (sendDM emptyDb "Max" "Sam" "ping" none none 9).1 "Sam" false).head?.map
         (fun e => (e.msg.id, e.msg.priority)) = some (emptyDb.nextId, some "normal") ∧
     ((sendDM emptyDb "Max" "Sam" "ping" none none 9).1.notifications.drop
         emptyDb.notifications.length).map Notif.title = ["DM from " ++ agentMax.name]) :=
  sendDM_priority_roundtrip emptyDb "Max" "Sam" "ping" none 9 agentMax agentSam
    (by decide) (by decide)

/-- **C4.**  Posting a comment on a resolvable task by a known sender, whose
body mentions a known agent `x` distinct from the sender: exactly one
notification addressed to `x` is created by the call; every created
notification is an unread mention-notification; and none of the created
notifications is addressed to the sender (so a self-mention never produces a
self-notification). -/
theorem postComment_fanout_exactly_once
    (db : DB) (taskId : Nat) (agentName content : String) (now : Nat)
    (task : Task) (htask : getTask db.tasks taskId = some task)
    (sender : Agent) (hsender : findAgent db.agents (strToLower agentName) = some sender)
    (x : String) (xa : Agent) (hx : x ∈ parseMentions content)
    (hxa : findAgent db.agents x = some xa)
    (hxs : x ≠ strToLower agentName)
    (hids : (db.agents.map Agent.id).Nodup) :
    ∃ db' r, postComment db taskId agentName content now = Except.ok (db', r) ∧
      ((db'.notifications.drop db.notifications.length).filter
          (fun n => n.toId == xa.id)).length = 1 ∧
      (∀ n ∈ db'.notifications.drop db.notifications.length,
          n.ntype = "mention" ∧ n.read = false) ∧
      (∀ n ∈ db'.notifications.drop db.notifications.length, n.toId ≠ sender.id) := by
  have hsS := findAgent_spec hsender
  have hxaS := findAgent_spec hxa
  simp only [postComment, htask, hsender]
  refine ⟨_, _, rfl, ?_, ?_, ?_⟩
  · rw [List.drop_left]
    unfold commentFanout
    apply length_filter_filterMap_unique _ _ (parseMentions content) x hx
      (parseMentions_nodup content)
    · refine ⟨mentionNotif sender xa
        (task.linearIdentifier.getD ("task-" ++ toString taskId)) content taskId now, ?_, ?_⟩
      · simp only [if_neg hxs, hxa]
      · simp [mentionNotif]
    · intro y hy hyx b hb
      by_cases hys : y = strToLower agentName
      · rw [if_pos hys] at hb
        cases hb
      · rw [if_neg hys] at hb
        cases hya : findAgent db.agents y with
        | none => rw [hya] at hb; cases hb
        | some ya =>
          rw [hya] at hb
          simp only [Option.some.injEq] at hb
          subst hb
          have hyaS := findAgent_spec hya
          have hne : ya ≠ xa := fun he => hyx (by rw [← hyaS.2, he, hxaS.2])
          have hid : ya.id ≠ xa.id := fun he =>
            hne (List.inj_on_of_nodup_map hids hyaS.1 hxaS.1 he)
          simp [mentionNotif, hid]
  · rw [List.drop_left]
    intro n hn
    unfold commentFanout at hn
    obtain ⟨y, hy, hfy⟩ := List.mem_filterMap.mp hn
    by_cases hys : y = strToLower agentName
    · rw [if_pos hys] at hfy
      cases hfy
    · rw [if_neg hys] at hfy
      cases hya : findAgent db.agents y with
      | none => rw [hya] at hfy; cases hfy
      | some ya =>
        rw [hya] at hfy
        simp only [Option.some.injEq] at hfy
        subst hfy
        exact ⟨rfl, rfl⟩
  · rw [List.drop_left]
    intro n hn
    unfold commentFanout at hn
    obtain ⟨y, hy, hfy⟩ := List.mem_filterMap.mp hn
    by_cases hys : y = strToLower agentName
    · rw [if_pos hys] at hfy
      cases hfy
    · rw [if_neg hys] at hfy
      cases hya : findAgent db.agents y with
      | none => rw [hya] at hfy; cases hfy
      | some ya =>
        rw [hya] at hfy
        simp only [Option.some.injEq] at hfy
        subst hfy
        have hyaS := findAgent_spec hya
        have hne : ya ≠ sender := fun he => hys (by rw [← hyaS.2, he, hsS.2])
        have hid : ya.id ≠ sender.id := fun he =>
          hne (List.inj_on_of_nodup_map hids hyaS.1 hsS.1 he)
        simpa [mentionNotif] using hid

/-- **C4** (witness at a concrete input: `sam` posts `"hello @Leo"`). -/
theorem postComment_fanout_exactly_once_w :
    ∃ db' r, postComment emptyDb 10 "sam" "hello @Leo" 4 = Except.ok (db', r) ∧
      ((db'.notifications.drop emptyDb.notifications.length).filter
          (fun n => n.toId == agentLeo.id)).length = 1 ∧
      (∀ n ∈ db'.notifications.drop emptyDb.notifications.length,
          n.ntype = "mention" ∧ n.read = false) ∧
      (∀ n ∈ db'.notifications.drop emptyDb.notifications.length, n.toId ≠ agentSam.id) :=
  postComment_fanout_exactly_once emptyDb 10 "sam" "hello @Leo" 4 exTask (by decide)
    agentSam (by decide) "leo" agentLeo (by decide) (by decide) (by decide) (by decide)

end Messaging
